import Mathlib

/-!
Verification of the `command` package of pablintino/commons-go
(`src/command/command.go`), a thin abstraction over external process
invocation with post-processing of captured output.

Modelling conventions:
* Go strings and byte slices are sequences of characters (`List Char`);
  `string(bytes)` is the identity on this representation since Go's
  conversion copies the bytes verbatim.
* A `Runnable` launches external processes, so the outcome of each
  underlying launch (`RunStdout`, `RunCombined`, `Run`) is environment
  determined; we model a `Runnable` as a record carrying those outcomes
  and quantify over it.  The derived operations (`RunStdoutStr`,
  `RunCombinedStr`, `RunToWriter`) are translated line by line from the
  source.
* Go errors are an inductive type; `errors.Join` (always called with two
  arguments in this code) keeps the non-nil arguments in order inside a
  `joined` node and returns nil when every argument is nil, as in the Go
  standard library.
-/

/-- Go strings, modelled as lists of characters. -/
abbrev GoString := List Char

/-- Go byte slices; the code only ever converts them to strings, so they
share the representation of `GoString`. -/
abbrev GoBytes := List Char

/-- Go's `string(bytes)` conversion: a verbatim copy of the bytes. -/
def stringOfBytes (b : GoBytes) : GoString := b

/-- Errors produced or propagated by the package: the `unknown trim
option` error built by `process`, opaque errors coming from the
operating system layer (`exec` failures, non-zero exits, cancellation),
and the result of `errors.Join` on a list of non-nil errors. -/
inductive GoErr : Type where
  | unknownTrimOption (opt : Int) : GoErr
  | osError (code : Nat) : GoErr
  | joined (errs : List GoErr) : GoErr

/-- Go `errors.Join(a, b)`: nil when both arguments are nil, otherwise an
error wrapping the list of non-nil arguments in order. -/
def errorsJoin (a b : Option GoErr) : Option GoErr :=
  match [a, b].filterMap id with
  | [] => none
  | es => some (GoErr.joined es)

namespace strings

/-- Go `strings.TrimLeft s cutset`: remove the leading characters of `s`
that belong to `cutset`. -/
def TrimLeft (s cutset : GoString) : GoString :=
  s.dropWhile (fun c => cutset.contains c)

/-- Go `strings.TrimRight s cutset`: remove the trailing characters of
`s` that belong to `cutset`. -/
def TrimRight (s cutset : GoString) : GoString :=
  (s.reverse.dropWhile (fun c => cutset.contains c)).reverse

/-- Go `strings.Trim s cutset`: remove from both ends. -/
def Trim (s cutset : GoString) : GoString :=
  TrimRight (TrimLeft s cutset) cutset

end strings

/-- `PostModifierTrimOption` is a Go `int`-backed enumeration. -/
abbrev PostModifierTrimOption := Int

/-- First enumerator (`iota` = 0). -/
def PostModifierTrimRight : PostModifierTrimOption := 0

/-- Second enumerator. -/
def PostModifierTrimLeft : PostModifierTrimOption := 1

/-- Third enumerator. -/
def PostModifierTrimBoth : PostModifierTrimOption := 2

/-- The `trimPostModifier` struct: a trim option and the trim character
set. -/
structure trimPostModifier : Type where
  trimOpt : PostModifierTrimOption
  trimChar : GoString

/-- `NewTrimPostModifier` constructor. -/
def NewTrimPostModifier (option : PostModifierTrimOption) (char : GoString) :
    trimPostModifier :=
  { trimOpt := option, trimChar := char }

/-- The `process` method of `trimPostModifier`: switch on the trim
option, defaulting to an `unknown trim option` error with an empty
string. -/
def trimPostModifier.process (t : trimPostModifier) (content : GoString) :
    GoString × Option GoErr :=
  if t.trimOpt = PostModifierTrimRight then
    (strings.TrimRight content t.trimChar, none)
  else if t.trimOpt = PostModifierTrimLeft then
    (strings.TrimLeft content t.trimChar, none)
  else if t.trimOpt = PostModifierTrimBoth then
    (strings.Trim content t.trimChar, none)
  else
    ([], some (GoErr.unknownTrimOption t.trimOpt))

/-- The `RunnablePostModifier` interface: anything exposing
`process : string -> (string, error)`. -/
def RunnablePostModifier : Type := GoString → GoString × Option GoErr

/-- A `trimPostModifier` used through the interface. -/
def trimPostModifier.asModifier (t : trimPostModifier) : RunnablePostModifier :=
  t.process

/-- A `Runnable`, modelled by the outcomes of its underlying process
launches: the result of `RunStdout`, of `RunCombined`, and of a plain
`Run` (used by `RunToWriter`).  Those outcomes are decided by the
operating system, so the model quantifies over them. -/
structure Runnable : Type where
  runStdoutRes : GoBytes × Option GoErr
  runCombinedRes : GoBytes × Option GoErr
  runRes : Option GoErr

/-- `RunStdout`: capture standard output only. -/
def Runnable.RunStdout (r : Runnable) : GoBytes × Option GoErr :=
  r.runStdoutRes

/-- `RunCombined`: capture interleaved standard output and error. -/
def Runnable.RunCombined (r : Runnable) : GoBytes × Option GoErr :=
  r.runCombinedRes

/-- `Run`: execute and discard output. -/
def Runnable.Run (r : Runnable) : Option GoErr :=
  r.runRes

/-- The modifier loop of `RunStdoutStr`: `err` is the error value in
scope when the loop starts (the `err` returned by `RunStdout`), `result`
the current string.  On a modifier failure the loop returns the current
`result` together with `errors.Join(err, procErr)`; on success the
result is replaced and the loop continues. -/
def runModifierLoop (err : Option GoErr) :
    GoString → List RunnablePostModifier → GoString × Option GoErr
  | result, [] => (result, none)
  | result, modifier :: rest =>
    match modifier result with
    | (_, some procErr) => (result, errorsJoin err (some procErr))
    | (procRes, none) => runModifierLoop err procRes rest

/-- `RunStdoutStr`: run `RunStdout`; on error return `("", err)`;
otherwise decode the bytes and fold the modifiers over the string. -/
def Runnable.RunStdoutStr (r : Runnable)
    (modifiers : List RunnablePostModifier) : GoString × Option GoErr :=
  match r.RunStdout with
  | (_, some err) => ([], some err)
  | (bytes, none) => runModifierLoop none (stringOfBytes bytes) modifiers

/-- `RunCombinedStr`: `RunCombined` decoded as text, `("", err)` on
failure. -/
def Runnable.RunCombinedStr (r : Runnable) : GoString × Option GoErr :=
  match r.RunCombined with
  | (_, some err) => ([], some err)
  | (bytes, none) => (stringOfBytes bytes, none)

/-- Identity of an `io.Writer` sink supplied by the caller. -/
abbrev WriterSink := Nat

/-- Destination of one output stream of the spawned command: the
platform default (the zero value of `cmd.Stdout` / `cmd.Stderr`) or a
caller-supplied sink. -/
inductive StreamDest : Type where
  | platformDefault : StreamDest
  | sink (w : WriterSink) : StreamDest
deriving DecidableEq

/-- The stream configuration of the `exec.Cmd` built by `RunToWriter`. -/
structure CmdStreams : Type where
  stdout : StreamDest
  stderr : StreamDest

/-- `RunToWriter`: build the command with both streams at the platform
default, install each sink only when it is non-nil, then run.  The model
returns the final stream configuration together with the run outcome. -/
def Runnable.RunToWriter (r : Runnable) (stdout stderr : Option WriterSink) :
    CmdStreams × Option GoErr :=
  let cmd : CmdStreams :=
    { stdout := StreamDest.platformDefault, stderr := StreamDest.platformDefault }
  let cmd : CmdStreams :=
    match stdout with
    | some w => { cmd with stdout := StreamDest.sink w }
    | none => cmd
  let cmd : CmdStreams :=
    match stderr with
    | some w => { cmd with stderr := StreamDest.sink w }
    | none => cmd
  (cmd, r.Run)

/-- Result of running an initial segment of a modifier chain: `some s`
when every modifier in the list succeeds in sequence starting from the
given string, producing `s`; `none` when one of them fails. -/
def chainResult : GoString → List RunnablePostModifier → Option GoString
  | s, [] => some s
  | s, modifier :: rest =>
    match modifier s with
    | (procRes, none) => chainResult procRes rest
    | (_, some _) => none

/-! ### Helper lemmas about the trim functions -/

theorem contains_tt {c : List Char} {ch : Char} : c.contains ch = true ↔ ch ∈ c := by
  simp [List.contains, List.elem_iff]

theorem dropWhile_cons_fix {p : Char → Bool} {a : Char} {u : List Char}
    (h : List.dropWhile p (a :: u) = a :: u) : p a = false := by
  cases hp : p a with
  | false => rfl
  | true =>
    exfalso
    rw [List.dropWhile_cons] at h
    simp only [hp, if_true] at h
    have hle : (List.dropWhile p u).length ≤ u.length :=
      (List.dropWhile_sublist p).length_le
    rw [h] at hle
    simp at hle

theorem dropWhile_fix_of_append {p : Char → Bool} {l t : List Char}
    (h : List.dropWhile p (l ++ t) = l ++ t) : List.dropWhile p l = l := by
  cases l with
  | nil => rfl
  | cons a u =>
    have hp : p a = false := dropWhile_cons_fix (u := u ++ t) h
    simp [List.dropWhile_cons, hp]

theorem head_false_of_dropWhile_fix {p : Char → Bool} {l : List Char}
    (h : List.dropWhile p l = l) : ∀ x, l.head? = some x → p x = false := by
  intro x hx
  cases l with
  | nil => simp at hx
  | cons a u =>
    simp only [List.head?_cons, Option.some.injEq] at hx
    subst hx
    exact dropWhile_cons_fix h

theorem TrimRight_append (s c : GoString) :
    strings.TrimRight s c ++
      (s.reverse.takeWhile (fun ch => c.contains ch)).reverse = s := by
  rw [strings.TrimRight, ← List.reverse_append, List.takeWhile_append_dropWhile,
    List.reverse_reverse]

theorem TrimRight_dropped_mem (s c : GoString) :
    ∀ ch ∈ (s.reverse.takeWhile (fun ch => c.contains ch)).reverse, ch ∈ c := by
  intro ch hch
  rw [List.mem_reverse] at hch
  have hc : c.contains ch = true := List.mem_takeWhile_imp hch
  exact contains_tt.mp hc

theorem TrimRight_getLast? (s c : GoString) :
    ∀ ch, (strings.TrimRight s c).getLast? = some ch → ch ∉ c := by
  intro ch hch
  rw [strings.TrimRight, List.getLast?_reverse] at hch
  have hnot : c.contains ch = false := by
    have h0 := List.head?_dropWhile_not (fun ch => c.contains ch) s.reverse
    rw [hch] at h0
    exact h0
  intro hmem
  rw [contains_tt.mpr hmem] at hnot
  simp at hnot

theorem TrimLeft_append (s c : GoString) :
    s.takeWhile (fun ch => c.contains ch) ++ strings.TrimLeft s c = s :=
  List.takeWhile_append_dropWhile _ s

theorem TrimLeft_dropped_mem (s c : GoString) :
    ∀ ch ∈ s.takeWhile (fun ch => c.contains ch), ch ∈ c := by
  intro ch hch
  have hc : c.contains ch = true := List.mem_takeWhile_imp hch
  exact contains_tt.mp hc

theorem TrimLeft_head? (s c : GoString) :
    ∀ ch, (strings.TrimLeft s c).head? = some ch → ch ∉ c := by
  intro ch hch
  rw [strings.TrimLeft] at hch
  have hnot : c.contains ch = false := by
    have h0 := List.head?_dropWhile_not (fun ch => c.contains ch) s
    rw [hch] at h0
    exact h0
  intro hmem
  rw [contains_tt.mpr hmem] at hnot
  simp at hnot

theorem TrimLeft_idem (s c : GoString) :
    strings.TrimLeft (strings.TrimLeft s c) c = strings.TrimLeft s c :=
  List.dropWhile_idempotent _ s

theorem TrimRight_idem (s c : GoString) :
    strings.TrimRight (strings.TrimRight s c) c = strings.TrimRight s c := by
  rw [strings.TrimRight, strings.TrimRight, List.reverse_reverse,
    List.dropWhile_idempotent]

theorem TrimLeft_TrimRight_fix {s c : GoString}
    (h : strings.TrimLeft s c = s) :
    strings.TrimLeft (strings.TrimRight s c) c = strings.TrimRight s c := by
  rw [strings.TrimLeft] at h ⊢
  refine dropWhile_fix_of_append
    (t := (s.reverse.takeWhile (fun ch => c.contains ch)).reverse) ?_
  rw [TrimRight_append s c, h]

theorem Trim_idem (s c : GoString) :
    strings.Trim (strings.Trim s c) c = strings.Trim s c := by
  rw [strings.Trim, strings.Trim,
    TrimLeft_TrimRight_fix (TrimLeft_idem s c), TrimRight_idem]

theorem Trim_split (s c : GoString) :
    ∃ t u, t ++ strings.Trim s c ++ u = s ∧
      (∀ ch ∈ t, ch ∈ c) ∧ (∀ ch ∈ u, ch ∈ c) := by
  refine ⟨s.takeWhile (fun ch => c.contains ch),
    ((strings.TrimLeft s c).reverse.takeWhile (fun ch => c.contains ch)).reverse,
    ?_, TrimLeft_dropped_mem s c, TrimRight_dropped_mem _ c⟩
  rw [strings.Trim, List.append_assoc, TrimRight_append, TrimLeft_append]

theorem Trim_head? (s c : GoString) :
    ∀ ch, (strings.Trim s c).head? = some ch → ch ∉ c := by
  intro ch hch hmem
  have hfix := TrimLeft_TrimRight_fix (TrimLeft_idem s c)
  rw [strings.TrimLeft] at hfix
  have h2 : c.contains ch = false := head_false_of_dropWhile_fix hfix ch hch
  rw [contains_tt.mpr hmem] at h2
  simp at h2

theorem Trim_getLast? (s c : GoString) :
    ∀ ch, (strings.Trim s c).getLast? = some ch → ch ∉ c :=
  TrimRight_getLast? _ c

/-! ### Helper lemma about the modifier loop -/

theorem runModifierLoop_append (e : Option GoErr) (ms2 : List RunnablePostModifier) :
    ∀ (ms1 : List RunnablePostModifier) (s sk : GoString),
      chainResult s ms1 = some sk →
      runModifierLoop e s (ms1 ++ ms2) = runModifierLoop e sk ms2 := by
  intro ms1
  induction ms1 with
  | nil =>
    intro s sk h
    simp only [chainResult, Option.some.injEq] at h
    subst h
    simp
  | cons m rest ih =>
    intro s sk h
    rw [List.cons_append]
    cases hm : m s with
    | mk res errOpt =>
      cases errOpt with
      | some pe =>
        simp only [chainResult, hm] at h
        exact absurd h (by simp)
      | none =>
        simp only [chainResult, hm] at h
        simp only [runModifierLoop, hm]
        exact ih res sk h

/-! ### Claims -/

/-- C1: if `RunStdout` succeeds and the modifier chain reaches a failing
modifier after an initial segment of successful modifiers, then
`RunStdoutStr` stops at that failing modifier — the result does not
depend on the modifiers after it — and returns as its string result the
last successfully produced value (the value before the failing modifier
ran), together with the failing modifier's error combined by
`errors.Join` with the prior error context. -/
theorem C1_modifier_failure_stops_chain
    (r : Runnable) (ms1 ms2 : List RunnablePostModifier)
    (m : RunnablePostModifier) (bytes : GoBytes) (sk res : GoString) (e : GoErr)
    (hstdout : r.RunStdout = (bytes, none))
    (hchain : chainResult (stringOfBytes bytes) ms1 = some sk)
    (hfail : m sk = (res, some e)) :
    r.RunStdoutStr (ms1 ++ m :: ms2) = (sk, some (GoErr.joined [e])) := by
  simp only [Runnable.RunStdoutStr, hstdout]
  rw [runModifierLoop_append none (m :: ms2) ms1 _ sk hchain]
  simp [runModifierLoop, hfail, errorsJoin]

/-- Witness for C1: capture `"ab"`, a first modifier that trims the
trailing `b` (producing `"a"`), a second modifier with the invalid trim
option `5` that fails, and a third modifier that is never reached. -/
theorem C1_witness :
    (Runnable.mk (['a', 'b'], none) ([], none) none).RunStdout
        = (['a', 'b'], none) ∧
    chainResult (stringOfBytes ['a', 'b'])
        [trimPostModifier.asModifier ⟨0, ['b']⟩] = some ['a'] ∧
    trimPostModifier.asModifier ⟨5, []⟩ ['a']
        = ([], some (GoErr.unknownTrimOption 5)) ∧
    (Runnable.mk (['a', 'b'], none) ([], none) none).RunStdoutStr
        ([trimPostModifier.asModifier ⟨0, ['b']⟩] ++
          trimPostModifier.asModifier ⟨5, []⟩ ::
            [trimPostModifier.asModifier ⟨2, []⟩])
        = (['a'], some (GoErr.joined [GoErr.unknownTrimOption 5])) :=
  ⟨rfl, rfl, rfl,
    C1_modifier_failure_stops_chain _ _ _ _ _ _ _ _ rfl rfl rfl⟩

/-- C2, counterexample: capture `"ab"`, first modifier trims the
trailing `b` and succeeds (producing `"a"`), second modifier fails.
`RunStdoutStr` returns `"a"`, not the original bytes-derived string
`"ab"` — the claim that the original capture is returned is false. -/
theorem C2_counterexample :
    ((Runnable.mk (['a', 'b'], none) ([], none) none).RunStdoutStr
        [trimPostModifier.asModifier ⟨0, ['b']⟩,
          trimPostModifier.asModifier ⟨5, []⟩]).1
      ≠ stringOfBytes (Runnable.mk (['a', 'b'], none) ([], none) none).RunStdout.1 := by
  decide

/-- C2, amended: when a modifier fails, `RunStdoutStr` returns the last
successfully produced string alongside a joined error; that string
equals the original bytes-derived capture exactly when the failing
modifier is the first one in the chain.  This theorem proves the
first-modifier case: the original capture is returned with the joined
error. -/
theorem C2_amended_first_modifier_failure
    (r : Runnable) (m : RunnablePostModifier) (ms : List RunnablePostModifier)
    (bytes : GoBytes) (res : GoString) (e : GoErr)
    (hstdout : r.RunStdout = (bytes, none))
    (hfail : m (stringOfBytes bytes) = (res, some e)) :
    r.RunStdoutStr (m :: ms) = (stringOfBytes bytes, some (GoErr.joined [e])) := by
  simp only [Runnable.RunStdoutStr, hstdout]
  simp [runModifierLoop, hfail, errorsJoin]

/-- Witness for the amended C2: an invalid-option modifier first in the
chain makes `RunStdoutStr` return the original capture `"xy"`. -/
theorem C2_amended_witness :
    (Runnable.mk (['x', 'y'], none) ([], none) none).RunStdout
        = (['x', 'y'], none) ∧
    trimPostModifier.asModifier ⟨7, ['x']⟩ (stringOfBytes ['x', 'y'])
        = ([], some (GoErr.unknownTrimOption 7)) ∧
    (Runnable.mk (['x', 'y'], none) ([], none) none).RunStdoutStr
        [trimPostModifier.asModifier ⟨7, ['x']⟩]
        = (['x', 'y'], some (GoErr.joined [GoErr.unknownTrimOption 7])) :=
  ⟨rfl, rfl, C2_amended_first_modifier_failure _ _ _ _ _ _ rfl rfl⟩

/-- C3, counterexample: a `RunStdout` outcome in which the process
failed but still produced the byte `a` (Go's `Output()` can return
partial output next to a non-nil error).  `RunStdoutStr []` returns the
empty string, not the decoding `"a"` of the byte result, so the claim's
failure case is false. -/
theorem C3_counterexample :
    ((Runnable.mk (['a'], some (GoErr.osError 0)) ([], none) none).RunStdoutStr
        []).1
      ≠ stringOfBytes
          (Runnable.mk (['a'], some (GoErr.osError 0)) ([], none) none).RunStdout.1 := by
  decide

/-- C3, amended: with an empty modifier list the returned error always
equals `RunStdout`'s error; on success the returned string is the
decoding of `RunStdout`'s byte result, while on failure it is the empty
string (not the decoded bytes). -/
theorem C3_amended_empty_modifiers (r : Runnable) :
    (r.RunStdoutStr []).2 = r.RunStdout.2 ∧
    (r.RunStdout.2 = none →
      (r.RunStdoutStr []).1 = stringOfBytes r.RunStdout.1) ∧
    (∀ e, r.RunStdout.2 = some e → (r.RunStdoutStr []).1 = []) := by
  rcases r with ⟨⟨b, eo⟩, cr, rr⟩
  cases eo <;>
    simp [Runnable.RunStdoutStr, Runnable.RunStdout, runModifierLoop, stringOfBytes]

/-- Witness for the amended C3, at a successful and at a failing
concrete `RunStdout` outcome. -/
theorem C3_amended_witness :
    ((Runnable.mk (['a'], none) ([], none) none).RunStdoutStr []).1
        = stringOfBytes ['a'] ∧
    ((Runnable.mk (['b'], some (GoErr.osError 3)) ([], none) none).RunStdoutStr []).1
        = [] :=
  ⟨(C3_amended_empty_modifiers (Runnable.mk (['a'], none) ([], none) none)).2.1 rfl,
    (C3_amended_empty_modifiers
      (Runnable.mk (['b'], some (GoErr.osError 3)) ([], none) none)).2.2
        (GoErr.osError 3) rfl⟩

/-- C10: when a modifier fails, the error context the failing modifier's
error is joined with is the `nil` returned by the successful
`RunStdout`, so the returned error is `errors.Join nil procErr`, which
wraps exactly the failing modifier's error and nothing else. -/
theorem C10_prior_error_context_nil
    (r : Runnable) (ms1 ms2 : List RunnablePostModifier)
    (m : RunnablePostModifier) (bytes : GoBytes) (sk res : GoString) (e : GoErr)
    (hstdout : r.RunStdout = (bytes, none))
    (hchain : chainResult (stringOfBytes bytes) ms1 = some sk)
    (hfail : m sk = (res, some e)) :
    (r.RunStdoutStr (ms1 ++ m :: ms2)).2 = errorsJoin none (some e) ∧
    errorsJoin none (some e) = some (GoErr.joined [e]) := by
  constructor
  · simp only [Runnable.RunStdoutStr, hstdout]
    rw [runModifierLoop_append none (m :: ms2) ms1 _ sk hchain]
    simp [runModifierLoop, hfail]
  · rfl

/-- Witness for C10: capture `"cd"`, one successful trim modifier, then
a failing one; the returned error wraps only the failing error. -/
theorem C10_witness :
    (Runnable.mk (['c', 'd'], none) ([], none) none).RunStdout
        = (['c', 'd'], none) ∧
    chainResult (stringOfBytes ['c', 'd'])
        [trimPostModifier.asModifier ⟨1, ['c']⟩] = some ['d'] ∧
    trimPostModifier.asModifier ⟨9, []⟩ ['d']
        = ([], some (GoErr.unknownTrimOption 9)) ∧
    ((Runnable.mk (['c', 'd'], none) ([], none) none).RunStdoutStr
        ([trimPostModifier.asModifier ⟨1, ['c']⟩] ++
          trimPostModifier.asModifier ⟨9, []⟩ :: [])).2
        = errorsJoin none (some (GoErr.unknownTrimOption 9)) :=
  ⟨rfl, rfl, rfl,
    (C10_prior_error_context_nil
      (Runnable.mk (['c', 'd'], none) ([], none) none)
      [trimPostModifier.asModifier ⟨1, ['c']⟩] []
      (trimPostModifier.asModifier ⟨9, []⟩)
      ['c', 'd'] ['d'] [] (GoErr.unknownTrimOption 9) rfl rfl rfl).1⟩

/-- C4: `process` fails exactly when the trim option is none of the
three known variants; on that failure it returns the unknown-option
error together with the empty string regardless of the input content,
and for the three known variants it never returns an error. -/
theorem C4_unknown_option_failure (t : trimPostModifier) (content : GoString) :
    ((t.process content).2 ≠ none ↔
      (t.trimOpt ≠ PostModifierTrimRight ∧ t.trimOpt ≠ PostModifierTrimLeft ∧
        t.trimOpt ≠ PostModifierTrimBoth)) ∧
    ((t.trimOpt ≠ PostModifierTrimRight ∧ t.trimOpt ≠ PostModifierTrimLeft ∧
        t.trimOpt ≠ PostModifierTrimBoth) →
      t.process content = ([], some (GoErr.unknownTrimOption t.trimOpt))) := by
  rcases t with ⟨opt, chars⟩
  simp only [trimPostModifier.process]
  split_ifs with h0 h1 h2 <;> simp_all

/-- Witness for C4: trim option `5` with any content fails with the
unknown-option error and an empty string. -/
theorem C4_witness :
    ((trimPostModifier.mk 5 ['x']).process ['a', 'b']).2 ≠ none ∧
    (trimPostModifier.mk 5 ['x']).process ['a', 'b']
        = ([], some (GoErr.unknownTrimOption 5)) :=
  ⟨(C4_unknown_option_failure ⟨5, ['x']⟩ ['a', 'b']).1.mpr (by decide),
    (C4_unknown_option_failure ⟨5, ['x']⟩ ['a', 'b']).2 (by decide)⟩

/-- C5: for each of the three known trim options and every trim
character set, `process` is idempotent: applying it twice yields the
same string result as applying it once. -/
theorem C5_process_idempotent (t : trimPostModifier) (s : GoString)
    (hopt : t.trimOpt = PostModifierTrimRight ∨ t.trimOpt = PostModifierTrimLeft ∨
      t.trimOpt = PostModifierTrimBoth) :
    (t.process ((t.process s).1)).1 = (t.process s).1 := by
  rcases t with ⟨opt, chars⟩
  simp only at hopt
  rcases hopt with h | h | h <;> subst h <;>
    simp [trimPostModifier.process, PostModifierTrimRight, PostModifierTrimLeft,
      PostModifierTrimBoth, TrimRight_idem, TrimLeft_idem, Trim_idem]

/-- Witness for C5: trim-both with character set `x` on `"xaxx"`. -/
theorem C5_witness :
    ((trimPostModifier.mk PostModifierTrimBoth ['x']).process
        (((trimPostModifier.mk PostModifierTrimBoth ['x']).process
          ['x', 'a', 'x', 'x']).1)).1
      = ((trimPostModifier.mk PostModifierTrimBoth ['x']).process
          ['x', 'a', 'x', 'x']).1 :=
  C5_process_idempotent ⟨PostModifierTrimBoth, ['x']⟩ ['x', 'a', 'x', 'x']
    (by decide)

/-- C6: trim-right removes exactly the trailing characters belonging to
the character set (what is removed is in the set and the result no
longer ends with a set character), trim-left removes exactly the
leading ones, trim-both removes from both ends; concretely, trim-both
on `"xxHelloxx"` with set `"x"` yields `"Hello"` and trim-right on
`"Hello!!!"` with set `"!"` yields `"Hello"`. -/
theorem C6_trim_sides_exact :
    (∀ s c : GoString, ∃ t, strings.TrimRight s c ++ t = s ∧
        (∀ ch ∈ t, ch ∈ c) ∧
        ∀ ch, (strings.TrimRight s c).getLast? = some ch → ch ∉ c) ∧
    (∀ s c : GoString, ∃ t, t ++ strings.TrimLeft s c = s ∧
        (∀ ch ∈ t, ch ∈ c) ∧
        ∀ ch, (strings.TrimLeft s c).head? = some ch → ch ∉ c) ∧
    (∀ s c : GoString, ∃ t u, t ++ strings.Trim s c ++ u = s ∧
        (∀ ch ∈ t, ch ∈ c) ∧ (∀ ch ∈ u, ch ∈ c) ∧
        (∀ ch, (strings.Trim s c).head? = some ch → ch ∉ c) ∧
        (∀ ch, (strings.Trim s c).getLast? = some ch → ch ∉ c)) ∧
    (trimPostModifier.mk PostModifierTrimBoth ['x']).process "xxHelloxx".toList
        = ("Hello".toList, none) ∧
    (trimPostModifier.mk PostModifierTrimRight ['!']).process "Hello!!!".toList
        = ("Hello".toList, none) := by
  refine ⟨fun s c => ⟨_, TrimRight_append s c, TrimRight_dropped_mem s c,
      TrimRight_getLast? s c⟩,
    fun s c => ⟨_, TrimLeft_append s c, TrimLeft_dropped_mem s c,
      TrimLeft_head? s c⟩,
    fun s c => ?_, rfl, rfl⟩
  obtain ⟨t, u, h1, h2, h3⟩ := Trim_split s c
  exact ⟨t, u, h1, h2, h3, Trim_head? s c, Trim_getLast? s c⟩

/-- Witness for C6: the concrete trim-both example extracted from the
theorem. -/
theorem C6_witness :
    (trimPostModifier.mk PostModifierTrimBoth ['x']).process "xxHelloxx".toList
        = ("Hello".toList, none) :=
  C6_trim_sides_exact.2.2.2.1

/-- C7: whenever `RunCombined` fails, `RunCombinedStr` returns the
empty string with that same error, regardless of any partial byte
output; whenever `RunCombined` succeeds, `RunCombinedStr` returns its
bytes decoded as text with no error. -/
theorem C7_runCombinedStr_zero_on_failure (r : Runnable) :
    (∀ e, r.RunCombined.2 = some e → r.RunCombinedStr = ([], some e)) ∧
    (r.RunCombined.2 = none →
      r.RunCombinedStr = (stringOfBytes r.RunCombined.1, none)) := by
  rcases r with ⟨sr, ⟨b, eo⟩, rr⟩
  cases eo <;> simp [Runnable.RunCombinedStr, Runnable.RunCombined, stringOfBytes]

/-- Witness for C7: a failing capture with partial output `"p"` yields
the empty string, a successful capture `"q"` is decoded. -/
theorem C7_witness :
    (Runnable.mk ([], none) (['p'], some (GoErr.osError 1)) none).RunCombinedStr
        = ([], some (GoErr.osError 1)) ∧
    (Runnable.mk ([], none) (['q'], none) none).RunCombinedStr
        = (stringOfBytes ['q'], none) :=
  ⟨(C7_runCombinedStr_zero_on_failure
      (Runnable.mk ([], none) (['p'], some (GoErr.osError 1)) none)).1
      (GoErr.osError 1) rfl,
    (C7_runCombinedStr_zero_on_failure
      (Runnable.mk ([], none) (['q'], none) none)).2 rfl⟩

/-- C8: `RunToWriter` installs a stream sink exactly when the caller
supplied one — an omitted sink leaves that stream at the platform
default — and the returned error is exactly the underlying run outcome,
independent of which sinks were omitted. -/
theorem C8_runToWriter_sinks (r : Runnable) (so se : Option WriterSink) :
    ((r.RunToWriter so se).1.stdout = StreamDest.platformDefault ↔ so = none) ∧
    (∀ w, (r.RunToWriter so se).1.stdout = StreamDest.sink w ↔ so = some w) ∧
    ((r.RunToWriter so se).1.stderr = StreamDest.platformDefault ↔ se = none) ∧
    (∀ w, (r.RunToWriter so se).1.stderr = StreamDest.sink w ↔ se = some w) ∧
    (r.RunToWriter so se).2 = r.Run := by
  cases so <;> cases se <;> simp [Runnable.RunToWriter]

/-- Witness for C8: only a stdout sink supplied — stderr stays at the
platform default and the call returns the run outcome unchanged. -/
theorem C8_witness :
    ((Runnable.mk ([], none) ([], none) none).RunToWriter (some 3) none).1.stderr
        = StreamDest.platformDefault ∧
    ((Runnable.mk ([], none) ([], none) none).RunToWriter (some 3) none).1.stdout
        = StreamDest.sink 3 ∧
    ((Runnable.mk ([], none) ([], none) none).RunToWriter (some 3) none).2
        = (Runnable.mk ([], none) ([], none) none).Run :=
  ⟨(C8_runToWriter_sinks (Runnable.mk ([], none) ([], none) none)
      (some 3) none).2.2.1.mpr rfl,
    ((C8_runToWriter_sinks (Runnable.mk ([], none) ([], none) none)
      (some 3) none).2.1 3).mpr rfl,
    (C8_runToWriter_sinks (Runnable.mk ([], none) ([], none) none)
      (some 3) none).2.2.2.2⟩

/-- C9: for every trim option (including unknown ones, whose branch
returns the empty string) and every character set, the string returned
by `process` is a contiguous substring of the input, and its length
never exceeds the input's length. -/
theorem C9_process_result_within_input (t : trimPostModifier) (s : GoString) :
    (∃ u v, u ++ (t.process s).1 ++ v = s) ∧
    (t.process s).1.length ≤ s.length := by
  have hmain : ∃ u v, u ++ (t.process s).1 ++ v = s := by
    rcases t with ⟨opt, chars⟩
    simp only [trimPostModifier.process]
    split_ifs with h0 h1 h2
    · exact ⟨[], (s.reverse.takeWhile (fun ch => chars.contains ch)).reverse,
        by simpa using TrimRight_append s chars⟩
    · exact ⟨s.takeWhile (fun ch => chars.contains ch), [],
        by simpa using TrimLeft_append s chars⟩
    · obtain ⟨t1, u1, h, _, _⟩ := Trim_split s chars
      exact ⟨t1, u1, h⟩
    · exact ⟨s, [], by simp⟩
  refine ⟨hmain, ?_⟩
  obtain ⟨u, v, h⟩ := hmain
  have hlen := congrArg List.length h
  simp only [List.length_append] at hlen
  omega

/-- Witness for C9 at a concrete unknown-option modifier. -/
theorem C9_witness :
    ((trimPostModifier.mk 3 []).process ['a']).1.length
      ≤ (['a'] : GoString).length :=
  (C9_process_result_within_input ⟨3, []⟩ ['a']).2
